import Mathlib

/-!
Verification development for the Allusion renderer sources: the masonry
layout engine exposed through the `MasonryWorker` wasm binding, the
`getBytesHumanReadable` formatter of the Inspector panel, and the
`testImage` URL check of the drag-and-drop import overlay.

The computation body of the masonry engine is not part of the provided
sources (only its generated TypeScript declaration file is), so the engine
is modelled from the specification.  Machine numbers are modelled as `Nat`
(all of the specification's examples are integral), fatal out-of-bounds
faults as `Option.none`, and the asynchronous `compute` call as a pure
state transition (the spec forbids concurrent calls on one session, so a
completed call is a function of the session state and the arguments).
-/

namespace Allusion

/-- Modelled from the spec: a `Transform` record `{x, y, width, height}`,
the absolute position and size assigned to one item by a layout pass. -/
structure Transform where
  x : Nat
  y : Nat
  width : Nat
  height : Nat
deriving DecidableEq

/-- Modelled from the spec: one item dimension record
(`source_width`, `source_height`). -/
structure Dimension where
  srcWidth : Nat
  srcHeight : Nat
deriving DecidableEq

/-- The `MasonryType` enum of the binding declaration:
`Vertical`, `Horizontal`, `Grid`. -/
inductive MasonryType where
  | Vertical
  | Horizontal
  | Grid
deriving DecidableEq

/-- Modelled from the spec: the layout session state of a `MasonryWorker`:
the active item count, the dimension table (a total map with a default
record for never-set indices), its retained capacity, and the transforms
of the most recent completed `compute`.  `reallocs` is the
capacity-tracking test hook the spec mentions for observing reallocation:
it is incremented exactly when the backing table has to grow. -/
structure MasonryWorker where
  count : Nat
  capacity : Nat
  reallocs : Nat
  dims : Nat → Dimension
  transforms : List Transform

/-- Maximum of a list of naturals (`0` for the empty list). -/
def maxList (l : List Nat) : Nat := l.foldr max 0

/-- Index of the least element of a list of accumulated extents; among
equal minima the lowest index is picked (the spec's tie-break rule). -/
def shortestIdx : List Nat → Nat
  | [] => 0
  | [_] => 0
  | a :: b :: t =>
    if a ≤ (b :: t).getD (shortestIdx (b :: t)) 0 then 0
    else shortestIdx (b :: t) + 1

/-- Modelled from the spec: greedy masonry placement.  Each item is placed
into the lane (column for the vertical kind, row for the horizontal kind)
with the least accumulated extent; the lane then accumulates
`item extent + padding`.  `size` computes the item's extent along the lane
from its source dimensions and `mk lane offset size` builds the emitted
transform. -/
def layoutGreedy (pad : Nat) (size : Dimension → Nat)
    (mk : Nat → Nat → Nat → Transform) :
    List Dimension → List Nat → List Transform × List Nat
  | [], es => ([], es)
  | d :: ds, es =>
    let c := shortestIdx es
    let off := es.getD c 0
    let r := layoutGreedy pad size mk ds (es.set c (off + size d + pad))
    (mk c off (size d) :: r.1, r.2)

/-- Modelled from the spec: number of lanes of the vertical (columns) and
horizontal (rows) masonry kinds, derived from the container width and the
thumbnail size; a layout always has at least one lane. -/
def laneCount (W T : Nat) : Nat := max 1 (W / T)

/-- Modelled from the spec: column count of the grid kind, "computed by
how many fixed-size cells fit in `container_width`", the cell stride being
`thumbnail_size + padding`. -/
def gridColumns (W T pad : Nat) : Nat := W / (T + pad)

/-- Transform built by the vertical masonry: item in column `c` at running
height `off`, scaled to the common column width, with scaled height `s`. -/
def mkVertical (colW : Nat) (c off s : Nat) : Transform :=
  ⟨c * colW, off, colW, s⟩

/-- Transform built by the horizontal masonry: item in row `c` at running
width `off`, scaled to the common row height, with scaled width `s`. -/
def mkHorizontal (rowH : Nat) (c off s : Nat) : Transform :=
  ⟨off, c * rowH, s, rowH⟩

/-- Height of an item scaled to the common column width, preserving the
source aspect ratio. -/
def sizeVertical (colW : Nat) (d : Dimension) : Nat :=
  d.srcHeight * colW / d.srcWidth

/-- Width of an item scaled to the common row height, preserving the
source aspect ratio. -/
def sizeHorizontal (rowH : Nat) (d : Dimension) : Nat :=
  d.srcWidth * rowH / d.srcHeight

/-- Transform of the `i`-th item of the grid kind: fixed-size
`thumbnail_size` cells in row-major order with stride
`thumbnail_size + padding`. -/
def gridTransform (cols stride T i : Nat) : Transform :=
  ⟨i % cols * stride, i / cols * stride, T, T⟩

/-- Modelled from the spec: the full layout pass over the active items.
Returns the transforms (one per item, in item order) and the total extent:
the maximum accumulated lane extent for the masonry kinds, and
`⌈count / columns⌉ * (cell_height + padding)` (here in the form
`(count + cols - 1) / cols * (T + pad)`) for the grid kind. -/
def computeKind (count : Nat) (dims : Nat → Dimension) (W : Nat)
    (kind : MasonryType) (T pad : Nat) : List Transform × Nat :=
  match kind with
  | .Vertical =>
    let n := laneCount W T
    let colW := W / n
    let r := layoutGreedy pad (sizeVertical colW) (mkVertical colW)
      ((List.range count).map dims) (List.replicate n 0)
    (r.1, maxList r.2)
  | .Horizontal =>
    let n := laneCount W T
    let rowH := W / n
    let r := layoutGreedy pad (sizeHorizontal rowH) (mkHorizontal rowH)
      ((List.range count).map dims) (List.replicate n 0)
    (r.1, maxList r.2)
  | .Grid =>
    let cols := gridColumns W T pad
    ((List.range count).map (gridTransform cols (T + pad) T),
      (count + cols - 1) / cols * (T + pad))

/-- Modelled from the spec: session construction with an initial item
count; the backing table is allocated once here. -/
def MasonryWorker.new (numItems : Nat) : MasonryWorker :=
  ⟨numItems, numItems, 1, fun _ => ⟨0, 0⟩, []⟩

/-- Modelled from the spec: `resize(new_len)` sets the active item count;
the backing table only ever grows (capacity is retained on shrink), and
the reallocation hook ticks exactly when `new_len` exceeds the current
capacity. -/
def MasonryWorker.resize (s : MasonryWorker) (newLen : Nat) : MasonryWorker :=
  { s with
    count := newLen
    capacity := max s.capacity newLen
    reallocs := s.reallocs + if s.capacity < newLen then 1 else 0 }

/-- Modelled from the spec: `set_dimension(index, w, h)` records the
source size of one item.  An index outside `0 ≤ index < count` of the most
recent resize is a fatal out-of-bounds fault, modelled as `none`.
Degenerate (zero) source dimensions are accepted and clamped to a minimal
non-zero footprint of `1`. -/
def MasonryWorker.set_dimension (s : MasonryWorker) (index srcW srcH : Nat) :
    Option MasonryWorker :=
  if index < s.count then
    some { s with dims := Function.update s.dims index ⟨max 1 srcW, max 1 srcH⟩ }
  else
    none

/-- Modelled from the spec: a completed `compute(width, kind,
thumbnail_size, padding)` call: recomputes all transforms and returns the
updated session together with the total extent. -/
def MasonryWorker.compute (s : MasonryWorker) (W : Nat) (kind : MasonryType)
    (T pad : Nat) : MasonryWorker × Nat :=
  let r := computeKind s.count s.dims W kind T pad
  ({ s with transforms := r.1 }, r.2)

/-- `get_transform(index)`: the transform of the most recent completed
`compute` for the item at `index`; an index not covered by it is a fatal
fault, modelled as `none`. -/
def MasonryWorker.get_transform (s : MasonryWorker) (index : Nat) :
    Option Transform :=
  s.transforms.get? index

/-- One session operation, for stating invariants over whole operation
sequences. -/
inductive MasonryOp where
  | opResize (newLen : Nat)
  | opSetDimension (index srcW srcH : Nat)
  | opCompute (W : Nat) (kind : MasonryType) (T pad : Nat)

/-- Apply one operation to the session state (a faulting `set_dimension`
terminates the call and leaves the state unchanged). -/
def applyOp (s : MasonryWorker) : MasonryOp → MasonryWorker
  | .opResize n => s.resize n
  | .opSetDimension i w h => (s.set_dimension i w h).getD s
  | .opCompute W k T pad => (s.compute W k T pad).1

/-- Apply a sequence of session operations in order. -/
def applyOps (s : MasonryWorker) (ops : List MasonryOp) : MasonryWorker :=
  ops.foldl applyOp s

/-- Occupied height of a layout: the maximal lower edge (plus trailing
padding) over all transforms. -/
def containerHeight (pad : Nat) (ts : List Transform) : Nat :=
  maxList (ts.map fun t => t.y + t.height + pad)

/-- Occupied width of a layout: the maximal right edge (plus trailing
padding) over all transforms. -/
def containerWidth (pad : Nat) (ts : List Transform) : Nat :=
  maxList (ts.map fun t => t.x + t.width + pad)

/-- A concrete session whose items all have the same source dimension,
used by the example-based claims. -/
def exampleWorker (numItems : Nat) (d : Dimension) : MasonryWorker :=
  ⟨numItems, numItems, 1, fun _ => d, []⟩

/-- The unit suffix table of `getBytesHumanReadable`
(`src/renderer/frontend/containers/Inspector/index.tsx`), spelled as in
the source. -/
def sufixes : List String :=
  ["Bytes", "KB", "MB", "GB", "TB", "PB", "EB", "ZB", "YB"]

/-- Fuel-driven base-1024 integer logarithm (the fuel is an upper bound on
the argument, so `log1024Aux n n` is exact). -/
def log1024Aux : Nat → Nat → Nat
  | 0, _ => 0
  | fuel + 1, n => if n < 1024 then 0 else log1024Aux fuel (n / 1024) + 1

/-- `Math.floor(Math.log(n) / Math.log(1024))` of the source for a
positive integral argument: the base-1024 integer logarithm. -/
def log1024 (n : Nat) : Nat := log1024Aux n n

/-- JavaScript `Number.prototype.toFixed(2)` on a nonnegative rational:
round to the nearest hundredth (ties away from zero on nonnegative input)
and print with exactly two decimal digits. -/
def toFixed2 (q : ℚ) : String :=
  let m := (⌊q * 100 + 1 / 2⌋).toNat
  toString (m / 100) ++ "." ++ (if m % 100 < 10 then "0" else "")
    ++ toString (m % 100)

/-- `getBytesHumanReadable` of
`src/renderer/frontend/containers/Inspector/index.tsx`: `'0 Bytes'` for
nonpositive input, otherwise the value divided by `1024 ^ i` with
`i = ⌊log n / log 1024⌋`, printed with two decimals and the `i`-th unit
suffix (an out-of-table index would print as JavaScript `undefined`). -/
def getBytesHumanReadable (bytes : Int) : String :=
  if bytes ≤ 0 then "0 Bytes"
  else
    let i := log1024 bytes.toNat
    toFixed2 ((bytes : ℚ) / (1024 : ℚ) ^ i) ++ " "
      ++ (sufixes.get? i).getD "undefined"

/-- The known image extensions checked by the drag-and-drop import
(`imgExtensions` is imported from the Outliner's `ImportForm` module,
which is not among the provided sources; the same list appears literally
in the provided `FileList` source). -/
def imgExtensions : List String := ["gif", "png", "jpg", "jpeg"]

/-- Outcome of `timeoutPromise(timeout, fetch(url))` as observed by
`testImage`: either some rejection (network failure or timeout), or a
fulfilled response whose `type` field is a string. -/
inductive FetchOutcome where
  | failure
  | success (contentType : String)

/-- `testImage` of the drag-and-drop overlay source: every rejection is
caught and turned into `false`; a fulfilled response yields whether its
type string ends with one of the known image extensions. -/
def testImage : FetchOutcome → Bool
  | .failure => false
  | .success ty => imgExtensions.any fun ext => ty.endsWith ext

/-- The selected lane index is always in range for a nonempty extent list. -/
theorem shortestIdx_lt_length : ∀ (es : List Nat), es ≠ [] → shortestIdx es < es.length
  | [], h => absurd rfl h
  | [_], _ => Nat.zero_lt_one
  | a :: b :: t, _ => by
    simp only [shortestIdx]
    split
    · simp
    · have ih := shortestIdx_lt_length (b :: t) (by simp)
      simp only [List.length_cons] at ih ⊢
      omega

/-- The selected lane has the least accumulated extent. -/
theorem shortestIdx_min : ∀ (es : List Nat) (j : Nat), j < es.length →
    es.getD (shortestIdx es) 0 ≤ es.getD j 0
  | [], _, h => by simp at h
  | [a], j, h => by
    have : j = 0 := by simpa using Nat.lt_one_iff.mp (by simpa using h)
    subst this
    simp [shortestIdx]
  | a :: b :: t, j, h => by
    simp only [shortestIdx]
    split
    case isTrue hle =>
      cases j with
      | zero => simp
      | succ j' =>
        have hj' : j' < (b :: t).length := by
          simpa using Nat.lt_of_succ_lt_succ (by simpa using h)
        have := shortestIdx_min (b :: t) j' hj'
        simp only [List.getD_cons_zero, List.getD_cons_succ]
        omega
    case isFalse hgt =>
      cases j with
      | zero =>
        simp only [List.getD_cons_zero, List.getD_cons_succ]
        omega
      | succ j' =>
        have hj' : j' < (b :: t).length := by
          simpa using Nat.lt_of_succ_lt_succ (by simpa using h)
        have := shortestIdx_min (b :: t) j' hj'
        simp only [List.getD_cons_succ]
        omega

/-- Among lanes of equal least extent the lowest index is selected. -/
theorem shortestIdx_least : ∀ (es : List Nat) (j : Nat), j < es.length →
    es.getD j 0 ≤ es.getD (shortestIdx es) 0 → shortestIdx es ≤ j
  | [], _, h, _ => by simp at h
  | [_], _, _, _ => by simp [shortestIdx]
  | a :: b :: t, j, h, hle => by
    simp only [shortestIdx] at hle ⊢
    split
    case isTrue => simp
    case isFalse hgt =>
      rw [if_neg hgt] at hle
      cases j with
      | zero =>
        simp only [List.getD_cons_zero, List.getD_cons_succ] at hle
        omega
      | succ j' =>
        have hj' : j' < (b :: t).length := by
          simpa using Nat.lt_of_succ_lt_succ (by simpa using h)
        simp only [List.getD_cons_succ] at hle
        have := shortestIdx_least (b :: t) j' hj' hle
        omega

/-- Unfolding lemma for `maxList` on a cons cell. -/
theorem maxList_cons (a : Nat) (l : List Nat) :
    maxList (a :: l) = max a (maxList l) := rfl

/-- `maxList` distributes over list append as a maximum. -/
theorem maxList_append (l₁ l₂ : List Nat) :
    maxList (l₁ ++ l₂) = max (maxList l₁) (maxList l₂) := by
  induction l₁ with
  | nil => simp [maxList]
  | cons a l ih =>
    simp only [List.cons_append, maxList_cons, ih]
    omega

/-- An all-zero extent list has maximum `0`. -/
theorem maxList_replicate_zero (n : Nat) : maxList (List.replicate n 0) = 0 := by
  induction n with
  | zero => rfl
  | succ n ih => simp [List.replicate, maxList_cons, ih]

/-- Overwriting an entry with a not-smaller value turns `maxList` into the
maximum with the new value. -/
theorem maxList_set : ∀ (l : List Nat) (c v : Nat), c < l.length →
    l.getD c 0 ≤ v → maxList (l.set c v) = max (maxList l) v
  | [], _, _, h, _ => by simp at h
  | a :: t, 0, v, _, hle => by
    simp only [List.getD_cons_zero] at hle
    simp only [List.set, maxList_cons]
    omega
  | a :: t, c + 1, v, h, hle => by
    have ih := maxList_set t c v (by simpa using Nat.lt_of_succ_lt_succ (by simpa using h))
      (by simpa using hle)
    simp only [List.set, maxList_cons, ih]
    omega

/-- The placement emits exactly one transform per item. -/
theorem layoutGreedy_length (pad : Nat) (size : Dimension → Nat)
    (mk : Nat → Nat → Nat → Transform) :
    ∀ (ds : List Dimension) (es : List Nat),
      (layoutGreedy pad size mk ds es).1.length = ds.length
  | [], _ => rfl
  | d :: ds, es => by
    simp only [layoutGreedy, List.length_cons]
    rw [layoutGreedy_length pad size mk ds]

/-- Every transform emitted by the placement targets an in-range lane. -/
theorem layoutGreedy_shape (pad : Nat) (size : Dimension → Nat)
    (mk : Nat → Nat → Nat → Transform) :
    ∀ (ds : List Dimension) (es : List Nat), es ≠ [] →
      ∀ t ∈ (layoutGreedy pad size mk ds es).1,
        ∃ c off s, c < es.length ∧ t = mk c off s
  | [], _, _, t, ht => by simp [layoutGreedy] at ht
  | d :: ds, es, hne, t, ht => by
    simp only [layoutGreedy, List.mem_cons] at ht
    rcases ht with rfl | ht
    · exact ⟨shortestIdx es, es.getD (shortestIdx es) 0, size d,
        shortestIdx_lt_length es hne, rfl⟩
    · have hne' :
          es.set (shortestIdx es) (es.getD (shortestIdx es) 0 + size d + pad) ≠ [] := by
        intro hnil
        exact hne (List.eq_nil_of_length_eq_zero (by
          simpa [List.length_set] using congrArg List.length hnil))
      obtain ⟨c, off, s, hc, rfl⟩ := layoutGreedy_shape pad size mk ds _ hne' t ht
      exact ⟨c, off, s, by simpa [List.length_set] using hc, rfl⟩

/-- The maximal accumulated lane extent after the placement is the maximum
of the per-item feet (`offset + size + padding`) and the initial maximum,
for any foot function matching the transform builder. -/
theorem layoutGreedy_extent (pad : Nat) (size : Dimension → Nat)
    (mk : Nat → Nat → Nat → Transform) (foot : Transform → Nat)
    (hfoot : ∀ c off s, foot (mk c off s) = off + s + pad) :
    ∀ (ds : List Dimension) (es : List Nat), es ≠ [] →
      maxList (layoutGreedy pad size mk ds es).2 =
        max (maxList ((layoutGreedy pad size mk ds es).1.map foot)) (maxList es)
  | [], es, _ => by simp [layoutGreedy, maxList]
  | d :: ds, es, hne => by
    have hc := shortestIdx_lt_length es hne
    have hset : maxList (es.set (shortestIdx es)
          (es.getD (shortestIdx es) 0 + size d + pad)) =
        max (maxList es) (es.getD (shortestIdx es) 0 + size d + pad) :=
      maxList_set es _ _ hc (by omega)
    have hne' :
        es.set (shortestIdx es) (es.getD (shortestIdx es) 0 + size d + pad) ≠ [] := by
      intro hnil
      exact hne (List.eq_nil_of_length_eq_zero (by
        simpa [List.length_set] using congrArg List.length hnil))
    have ih := layoutGreedy_extent pad size mk foot hfoot ds _ hne'
    simp only [layoutGreedy, List.map_cons, maxList_cons, hfoot]
    rw [ih, hset]
    omega

/-- Maximum of a monotone function over `0, …, n`. -/
theorem maxList_map_range_monotone (f : Nat → Nat)
    (hf : ∀ i j, i ≤ j → f i ≤ f j) :
    ∀ n, maxList ((List.range (n + 1)).map f) = f n
  | 0 => by
    have h1 : List.range 1 = [0] := rfl
    simp [h1, maxList]
  | n + 1 => by
    rw [show n + 1 + 1 = (n + 1).succ from rfl, List.range_succ, List.map_append,
      maxList_append, maxList_map_range_monotone f hf n]
    have := hf n (n + 1) (by omega)
    simp only [List.map_cons, List.map_nil, maxList, List.foldr_cons, List.foldr_nil]
    omega

/-- A completed `compute` always yields exactly one transform per active
item, for every kind. -/
theorem computeKind_length (count : Nat) (dims : Nat → Dimension) (W : Nat)
    (kind : MasonryType) (T pad : Nat) :
    (computeKind count dims W kind T pad).1.length = count := by
  cases kind <;>
    simp [computeKind, layoutGreedy_length, List.length_map, List.length_range]

/-- The grid pass stores the row-major cell transform at every index. -/
theorem computeKind_grid_get (count : Nat) (dims : Nat → Dimension)
    (W T pad : Nat) (i : Nat) (hi : i < count) :
    (computeKind count dims W .Grid T pad).1.get? i =
      some (gridTransform (gridColumns W T pad) (T + pad) T i) := by
  simp only [computeKind]
  rw [List.get?_map, List.get?_range hi]
  rfl

/-- `(a + b - 1) / b` is the ceiling of `a / b`: certifying bounds. -/
theorem ceilDiv_bounds (a b : Nat) (hb : 1 ≤ b) :
    a ≤ b * ((a + b - 1) / b) ∧ b * ((a + b - 1) / b) < a + b := by
  have h1 := Nat.div_add_mod (a + b - 1) b
  have h2 : (a + b - 1) % b < b := Nat.mod_lt _ (by omega)
  omega

/-- String append is associative. -/
theorem string_append_assoc (a b c : String) : a ++ b ++ c = a ++ (b ++ c) := by
  cases a with
  | mk da =>
    cases b with
    | mk db =>
      cases c with
      | mk dc =>
        show String.mk (da ++ db ++ dc) = String.mk (da ++ (db ++ dc))
        rw [List.append_assoc]

/-- The base-1024 integer logarithm vanishes below `1024`. -/
theorem log1024_eq_zero (n : Nat) (h : n < 1024) : log1024 n = 0 := by
  cases n with
  | zero => rfl
  | succ m => simp [log1024, log1024Aux, h]

/-- No single session operation ever shrinks the table capacity. -/
theorem capacity_le_applyOp (s : MasonryWorker) (op : MasonryOp) :
    s.capacity ≤ (applyOp s op).capacity := by
  cases op with
  | opResize n => exact Nat.le_max_left s.capacity n
  | opSetDimension i w h =>
    simp only [applyOp, MasonryWorker.set_dimension]
    split <;> simp
  | opCompute W k T pad => exact Nat.le_refl s.capacity

/-- Starting from all-zero lane extents, the maximal accumulated extent
after the placement is exactly the maximal per-item foot. -/
theorem layoutGreedy_extent_zero (pad : Nat) (size : Dimension → Nat)
    (mk : Nat → Nat → Nat → Transform) (foot : Transform → Nat)
    (hfoot : ∀ c off s, foot (mk c off s) = off + s + pad)
    (ds : List Dimension) (n : Nat) (hn : 1 ≤ n) :
    maxList (layoutGreedy pad size mk ds (List.replicate n 0)).2 =
      maxList ((layoutGreedy pad size mk ds (List.replicate n 0)).1.map foot) := by
  have hne : (List.replicate n 0 : List Nat) ≠ [] := by
    intro h
    have := congrArg List.length h
    simp only [List.length_replicate, List.length_nil] at this
    omega
  rw [layoutGreedy_extent pad size mk foot hfoot ds _ hne, maxList_replicate_zero]
  omega

/-- The grid extent formula is the occupied height of the grid layout. -/
theorem grid_extent_characterization (count cols T pad : Nat) (hcols : 1 ≤ cols) :
    (count + cols - 1) / cols * (T + pad) =
      containerHeight pad ((List.range count).map (gridTransform cols (T + pad) T)) := by
  simp only [containerHeight, List.map_map]
  have hcomp : ((fun t : Transform => t.y + t.height + pad) ∘ gridTransform cols (T + pad) T) =
      fun i => i / cols * (T + pad) + (T + pad) := by
    funext i
    simp only [Function.comp_apply, gridTransform]
    omega
  rw [hcomp]
  cases count with
  | zero =>
    have h0 : (0 + cols - 1) / cols = 0 := Nat.div_eq_of_lt (by omega)
    rw [h0]
    simp [maxList]
  | succ c =>
    rw [maxList_map_range_monotone (fun i => i / cols * (T + pad) + (T + pad))
      (fun i j hij => by
        show i / cols * (T + pad) + (T + pad) ≤ j / cols * (T + pad) + (T + pad)
        have hdiv : i / cols ≤ j / cols := Nat.div_le_div_right hij
        have := Nat.mul_le_mul_right (T + pad) hdiv
        omega) c]
    have h1 : c + 1 + cols - 1 = c + cols := by omega
    rw [h1, Nat.add_div_right c (by omega), Nat.succ_mul]

/-- Claim C3: `compute` is deterministic and idempotent: on any session
state, a second completed `compute` with identical arguments (and the
dimension table unchanged, which `compute` never touches) yields the same
transforms — also through `get_transform` at every index — and the same
returned extent.  In this model a completed `compute` is a pure function
of the session state and its arguments, so determinism is inherent. -/
theorem compute_idempotent :
    ∀ (s : MasonryWorker) (W : Nat) (kind : MasonryType) (T pad : Nat) (i : Nat),
      ((s.compute W kind T pad).1.compute W kind T pad).1.transforms =
        (s.compute W kind T pad).1.transforms ∧
      ((s.compute W kind T pad).1.compute W kind T pad).2 =
        (s.compute W kind T pad).2 ∧
      ((s.compute W kind T pad).1.compute W kind T pad).1.get_transform i =
        (s.compute W kind T pad).1.get_transform i :=
  fun _ _ _ _ _ _ => ⟨rfl, rfl, rfl⟩

/-- Claim C4: `set_dimension` with any index outside `0 ≤ index < count`
of the most recent resize is a fatal out-of-bounds fault (modelled as
`none`, never a recoverable result); in particular `set_dimension(5,10,10)`
after `resize(3)` faults. -/
theorem set_dimension_oob_faults :
    (∀ (s : MasonryWorker) (index srcW srcH : Nat),
      s.count ≤ index → s.set_dimension index srcW srcH = none) ∧
    ((MasonryWorker.new 0).resize 3).set_dimension 5 10 10 = none := by
  constructor
  · intro s index srcW srcH h
    simp [MasonryWorker.set_dimension, Nat.not_lt.mpr h]
  · rfl

/-- Witness for the claim C4 theorem at the spec's example input. -/
theorem set_dimension_oob_faults_witness :
    ((MasonryWorker.new 0).resize 3).count ≤ 5 ∧
    ((MasonryWorker.new 0).resize 3).set_dimension 5 10 10 = none :=
  ⟨by decide,
    set_dimension_oob_faults.1 ((MasonryWorker.new 0).resize 3) 5 10 10 (by decide)⟩

/-- Claim C5: the dimension table capacity is monotonically non-decreasing
over every sequence of session operations, and after `resize(n)` then
`resize(m)` with `m < n`, a further `resize(k)` with `k ≤ n` triggers no
reallocation (the reallocation hook does not tick and the capacity stays
at least `n`). -/
theorem capacity_monotone_no_realloc :
    (∀ (s : MasonryWorker) (ops : List MasonryOp),
      s.capacity ≤ (applyOps s ops).capacity) ∧
    (∀ (s : MasonryWorker) (n m k : Nat), m < n → k ≤ n →
      (((s.resize n).resize m).resize k).reallocs =
        ((s.resize n).resize m).reallocs ∧
      n ≤ (((s.resize n).resize m).resize k).capacity) := by
  constructor
  · intro s ops
    induction ops generalizing s with
    | nil => exact Nat.le_refl _
    | cons op ops ih =>
      exact Nat.le_trans (capacity_le_applyOp s op) (ih (applyOp s op))
  · intro s n m k hmn hkn
    have hcap2 : ((s.resize n).resize m).capacity = max s.capacity n := by
      show max (max s.capacity n) m = max s.capacity n
      omega
    refine ⟨?_, ?_⟩
    · show ((s.resize n).resize m).reallocs +
          (if ((s.resize n).resize m).capacity < k then 1 else 0) =
        ((s.resize n).resize m).reallocs
      rw [hcap2, if_neg (by omega)]
      omega
    · show n ≤ max ((s.resize n).resize m).capacity k
      rw [hcap2]
      omega

/-- Witness for the claim C5 theorem at `n = 3`, `m = 1`, `k = 2`. -/
theorem capacity_monotone_no_realloc_witness :
    1 < 3 ∧ 2 ≤ 3 ∧
    ((((MasonryWorker.new 0).resize 3).resize 1).resize 2).reallocs =
      (((MasonryWorker.new 0).resize 3).resize 1).reallocs ∧
    3 ≤ ((((MasonryWorker.new 0).resize 3).resize 1).resize 2).capacity :=
  ⟨by decide, by decide,
    (capacity_monotone_no_realloc.2 (MasonryWorker.new 0) 3 1 2 (by decide) (by decide)).1,
    (capacity_monotone_no_realloc.2 (MasonryWorker.new 0) 3 1 2 (by decide) (by decide)).2⟩

/-- Claim C6: when the masonry placement selects the lane (column for the
vertical kind, row for the horizontal kind) with the least accumulated
extent and several lanes are tied at the minimum, the lowest index is
chosen (`shortestIdx` attains the minimum and is the least index doing
so); the first item of a pass is placed exactly at `shortestIdx`; hence in
the concrete balanced examples two items of identical dimensions land in
lane 0 and lane 1 (columns `x = 0, 110` for Vertical, rows `y = 0, 110`
for Horizontal). -/
theorem tie_break_lowest_index :
    (∀ (es : List Nat), es ≠ [] →
      shortestIdx es < es.length ∧
      ∀ j, j < es.length →
        es.getD (shortestIdx es) 0 ≤ es.getD j 0 ∧
        (es.getD j 0 ≤ es.getD (shortestIdx es) 0 → shortestIdx es ≤ j)) ∧
    (∀ (pad : Nat) (size : Dimension → Nat) (mk : Nat → Nat → Nat → Transform)
      (d : Dimension) (ds : List Dimension) (es : List Nat),
      (layoutGreedy pad size mk (d :: ds) es).1.get? 0 =
        some (mk (shortestIdx es) (es.getD (shortestIdx es) 0) (size d))) ∧
    ((exampleWorker 2 ⟨100, 100⟩).compute 330 .Vertical 100 10).1.transforms =
      [⟨0, 0, 110, 110⟩, ⟨110, 0, 110, 110⟩] ∧
    ((exampleWorker 2 ⟨100, 100⟩).compute 330 .Horizontal 100 10).1.transforms =
      [⟨0, 0, 110, 110⟩, ⟨0, 110, 110, 110⟩] := by
  refine ⟨fun es hne => ⟨shortestIdx_lt_length es hne, fun j hj =>
      ⟨shortestIdx_min es j hj, shortestIdx_least es j hj⟩⟩,
    fun pad size mk d ds es => rfl, by decide, by decide⟩

/-- Witness for the claim C6 theorem on the extent list `[3, 5, 3]`, whose
minimum is attained at the tied indices `0` and `2`. -/
theorem tie_break_lowest_index_witness :
    ([3, 5, 3] : List Nat) ≠ [] ∧ 2 < ([3, 5, 3] : List Nat).length ∧
    [3, 5, 3].getD (shortestIdx [3, 5, 3]) 0 ≤ [3, 5, 3].getD 2 0 ∧
    shortestIdx [3, 5, 3] ≤ 2 :=
  ⟨by decide, by decide,
    ((tie_break_lowest_index.1 [3, 5, 3] (by decide)).2 2 (by decide)).1,
    ((tie_break_lowest_index.1 [3, 5, 3] (by decide)).2 2 (by decide)).2 (by decide)⟩

/-- Claim C8: degenerate zero source dimensions are accepted by
`set_dimension` at any valid index (no fault), clamped to the minimal
non-zero footprint `1 × 1`, and a subsequent `compute` still succeeds,
producing a well-defined layout with one transform per active item for
every kind — `compute` is total and never fails for valid inputs. -/
theorem degenerate_dims_clamped :
    ∀ (s : MasonryWorker) (i : Nat), i < s.count →
      ∃ s2, s.set_dimension i 0 0 = some s2 ∧
        s2.dims i = ⟨1, 1⟩ ∧
        0 < (s2.dims i).srcWidth ∧ 0 < (s2.dims i).srcHeight ∧
        ∀ (W : Nat) (kind : MasonryType) (T pad : Nat),
          (s2.compute W kind T pad).1.transforms.length = s2.count := by
  intro s i hi
  have h1 : s.set_dimension i 0 0 =
      some { s with dims := Function.update s.dims i ⟨1, 1⟩ } := by
    simp [MasonryWorker.set_dimension, hi]
  refine ⟨{ s with dims := Function.update s.dims i ⟨1, 1⟩ }, h1, ?_, ?_, ?_, ?_⟩
  · exact Function.update_same i ⟨1, 1⟩ s.dims
  · simp [Function.update_same]
  · simp [Function.update_same]
  · intro W kind T pad
    exact computeKind_length s.count (Function.update s.dims i ⟨1, 1⟩) W kind T pad

/-- Witness for the claim C8 theorem on a fresh three-item session. -/
theorem degenerate_dims_clamped_witness :
    1 < (MasonryWorker.new 3).count ∧
    ∃ s2, (MasonryWorker.new 3).set_dimension 1 0 0 = some s2 ∧
      s2.dims 1 = ⟨1, 1⟩ ∧
      0 < (s2.dims 1).srcWidth ∧ 0 < (s2.dims 1).srcHeight ∧
      ∀ (W : Nat) (kind : MasonryType) (T pad : Nat),
        (s2.compute W kind T pad).1.transforms.length = s2.count :=
  ⟨by decide, degenerate_dims_clamped (MasonryWorker.new 3) 1 (by decide)⟩

/-- Claim C10: `testImage` never rejects: every fetch failure or timeout is
caught and resolved to `false`, and a fulfilled fetch resolves to `true`
exactly when the fetched content's type string ends with one of the known
image extensions (the function is total into `Bool`, so it always resolves
to a boolean). -/
theorem test_image_resolves_boolean :
    testImage .failure = false ∧
    ∀ ty : String, (testImage (.success ty) = true ↔
      ∃ ext ∈ imgExtensions, ty.endsWith ext = true) := by
  refine ⟨rfl, fun ty => ?_⟩
  simp [testImage, List.any_eq_true]

/-- Claim C1: for the Grid arrangement, `compute` places items at
fixed-size cells in row-major order — item `i` sits in cell column
`i % columns` and cell row `i / columns`, at stride
`thumbnail_size + padding` — where the column count `gridColumns` is by
definition how many such cells fit in `container_width`, and the returned
extent is `⌈count / columns⌉ * (cell_height + padding)` (the ceiling
division is certified by the two bounds).  In the spec's example (4 items
of dimension (100,100), container width 220, thumbnail size 100,
padding 10) there are 2 columns, the items occupy cells
(0,0), (1,0), (0,1), (1,1) in order — pixel positions
(0,0), (110,0), (0,110), (110,110) — and the returned extent is 220. -/
theorem grid_rowmajor_layout :
    (∀ (count : Nat) (dims : Nat → Dimension) (W T pad : Nat),
      1 ≤ gridColumns W T pad →
      (∀ i, i < count →
        (computeKind count dims W .Grid T pad).1.get? i =
          some ⟨i % gridColumns W T pad * (T + pad),
            i / gridColumns W T pad * (T + pad), T, T⟩) ∧
      (computeKind count dims W .Grid T pad).2 =
        (count + gridColumns W T pad - 1) / gridColumns W T pad * (T + pad) ∧
      count ≤ gridColumns W T pad *
        ((count + gridColumns W T pad - 1) / gridColumns W T pad) ∧
      gridColumns W T pad *
          ((count + gridColumns W T pad - 1) / gridColumns W T pad) <
        count + gridColumns W T pad) ∧
    gridColumns 220 100 10 = 2 ∧
    ((exampleWorker 4 ⟨100, 100⟩).compute 220 .Grid 100 10).1.transforms =
      [⟨0, 0, 100, 100⟩, ⟨110, 0, 100, 100⟩, ⟨0, 110, 100, 100⟩,
        ⟨110, 110, 100, 100⟩] ∧
    ((exampleWorker 4 ⟨100, 100⟩).compute 220 .Grid 100 10).2 = 220 := by
  refine ⟨fun count dims W T pad hcols =>
    ⟨fun i hi => computeKind_grid_get count dims W T pad i hi, rfl,
      (ceilDiv_bounds count (gridColumns W T pad) hcols).1,
      (ceilDiv_bounds count (gridColumns W T pad) hcols).2⟩,
    by decide, by decide, by decide⟩

/-- Witness for the claim C1 theorem at the spec's example input. -/
theorem grid_rowmajor_layout_witness :
    1 ≤ gridColumns 220 100 10 ∧ 3 < 4 ∧
    (computeKind 4 (fun _ => ⟨100, 100⟩) 220 .Grid 100 10).1.get? 3 =
      some ⟨110, 110, 100, 100⟩ :=
  ⟨by decide, by decide,
    (grid_rowmajor_layout.1 4 (fun _ => (⟨100, 100⟩ : Dimension)) 220 100 10
      (by decide)).1 3 (by decide)⟩

/-- Claim C2: after a completed `compute` with kind Vertical or Grid,
`get_transform` at every index `0 ≤ i < count` yields a transform whose
horizontal span `[x, x + width]` lies within `[0, container_width]` (the
lower bound is inherent to the `Nat` model).  A valid grid call must fit
at least one cell column — the spec's grid extent formula divides by the
column count — which is the `1 ≤ gridColumns` hypothesis; the vertical
kind needs no such hypothesis. -/
theorem transforms_within_container :
    ∀ (s : MasonryWorker) (W T pad : Nat),
      (∀ i, i < s.count →
        ∃ t, (s.compute W .Vertical T pad).1.get_transform i = some t ∧
          t.x + t.width ≤ W) ∧
      (1 ≤ gridColumns W T pad →
        ∀ i, i < s.count →
          ∃ t, (s.compute W .Grid T pad).1.get_transform i = some t ∧
            t.x + t.width ≤ W) := by
  intro s W T pad
  constructor
  · intro i hi
    have hne : (List.replicate (laneCount W T) 0 : List Nat) ≠ [] := by
      intro h
      have hl := congrArg List.length h
      simp only [List.length_replicate, List.length_nil, laneCount] at hl
      omega
    have hlen : ((s.compute W .Vertical T pad).1.transforms).length = s.count :=
      computeKind_length s.count s.dims W .Vertical T pad
    have hi' : i < ((s.compute W .Vertical T pad).1.transforms).length := by omega
    refine ⟨((s.compute W .Vertical T pad).1.transforms).get ⟨i, hi'⟩,
      List.get?_eq_get hi', ?_⟩
    have hmem : ((s.compute W .Vertical T pad).1.transforms).get ⟨i, hi'⟩ ∈
        (layoutGreedy pad (sizeVertical (W / laneCount W T))
          (mkVertical (W / laneCount W T)) ((List.range s.count).map s.dims)
          (List.replicate (laneCount W T) 0)).1 :=
      List.get_mem _ _ _
    obtain ⟨c, off, sz, hc, ht⟩ := layoutGreedy_shape pad
      (sizeVertical (W / laneCount W T)) (mkVertical (W / laneCount W T))
      ((List.range s.count).map s.dims) (List.replicate (laneCount W T) 0)
      hne _ hmem
    rw [ht]
    show c * (W / laneCount W T) + W / laneCount W T ≤ W
    have hc' : c < laneCount W T := by
      simpa only [List.length_replicate] using hc
    have h1 : c * (W / laneCount W T) + W / laneCount W T =
        (c + 1) * (W / laneCount W T) := by
      rw [Nat.succ_mul]
    have h2 : (c + 1) * (W / laneCount W T) ≤ laneCount W T * (W / laneCount W T) :=
      Nat.mul_le_mul_right _ hc'
    have h3 : laneCount W T * (W / laneCount W T) ≤ W := by
      rw [Nat.mul_comm]
      exact Nat.div_mul_le_self W (laneCount W T)
    omega
  · intro hcols i hi
    refine ⟨gridTransform (gridColumns W T pad) (T + pad) T i,
      computeKind_grid_get s.count s.dims W T pad i hi, ?_⟩
    show i % gridColumns W T pad * (T + pad) + T ≤ W
    obtain ⟨c', hc'⟩ : ∃ c', gridColumns W T pad = c' + 1 :=
      ⟨gridColumns W T pad - 1, by omega⟩
    rw [hc']
    have hmod : i % (c' + 1) ≤ c' := by
      have := Nat.mod_lt i (show 0 < c' + 1 by omega)
      omega
    have hmul : i % (c' + 1) * (T + pad) ≤ c' * (T + pad) :=
      Nat.mul_le_mul_right _ hmod
    have hfit : (c' + 1) * (T + pad) ≤ W := by
      have hdv : gridColumns W T pad * (T + pad) ≤ W :=
        Nat.div_mul_le_self W (T + pad)
      rw [hc'] at hdv
      exact hdv
    have hexp : (c' + 1) * (T + pad) = c' * (T + pad) + (T + pad) :=
      Nat.succ_mul _ _
    omega

/-- Witness for the claim C2 theorem on the spec's example sessions. -/
theorem transforms_within_container_witness :
    1 < (exampleWorker 2 ⟨100, 100⟩).count ∧
    (∃ t, ((exampleWorker 2 ⟨100, 100⟩).compute 330 .Vertical 100 10).1.get_transform 1 =
        some t ∧ t.x + t.width ≤ 330) ∧
    1 ≤ gridColumns 220 100 10 ∧ 3 < (exampleWorker 4 ⟨100, 100⟩).count ∧
    (∃ t, ((exampleWorker 4 ⟨100, 100⟩).compute 220 .Grid 100 10).1.get_transform 3 =
        some t ∧ t.x + t.width ≤ 220) :=
  ⟨by decide,
    (transforms_within_container (exampleWorker 2 ⟨100, 100⟩) 330 100 10).1 1 (by decide),
    by decide, by decide,
    (transforms_within_container (exampleWorker 4 ⟨100, 100⟩) 220 100 10).2
      (by decide) 3 (by decide)⟩

/-- Claim C7: `compute` returns the total container extent as a number:
for the Vertical and Grid kinds the returned value is the container
height (the maximal lower edge, with trailing padding, over all emitted
transforms), and for the Horizontal kind it is the container width (the
maximal right edge, with trailing padding).  A valid grid call must fit
at least one cell column, as in the claim C2 theorem. -/
theorem compute_returns_extent :
    ∀ (s : MasonryWorker) (W T pad : Nat),
      (s.compute W .Vertical T pad).2 =
        containerHeight pad (s.compute W .Vertical T pad).1.transforms ∧
      (s.compute W .Horizontal T pad).2 =
        containerWidth pad (s.compute W .Horizontal T pad).1.transforms ∧
      (1 ≤ gridColumns W T pad →
        (s.compute W .Grid T pad).2 =
          containerHeight pad (s.compute W .Grid T pad).1.transforms) := by
  intro s W T pad
  refine ⟨?_, ?_, ?_⟩
  · show maxList (layoutGreedy pad (sizeVertical (W / laneCount W T))
        (mkVertical (W / laneCount W T)) ((List.range s.count).map s.dims)
        (List.replicate (laneCount W T) 0)).2 =
      containerHeight pad (layoutGreedy pad (sizeVertical (W / laneCount W T))
        (mkVertical (W / laneCount W T)) ((List.range s.count).map s.dims)
        (List.replicate (laneCount W T) 0)).1
    simp only [containerHeight]
    exact layoutGreedy_extent_zero pad (sizeVertical (W / laneCount W T))
      (mkVertical (W / laneCount W T)) (fun t => t.y + t.height + pad)
      (fun c off sz => rfl) ((List.range s.count).map s.dims) (laneCount W T)
      (Nat.le_max_left 1 (W / T))
  · show maxList (layoutGreedy pad (sizeHorizontal (W / laneCount W T))
        (mkHorizontal (W / laneCount W T)) ((List.range s.count).map s.dims)
        (List.replicate (laneCount W T) 0)).2 =
      containerWidth pad (layoutGreedy pad (sizeHorizontal (W / laneCount W T))
        (mkHorizontal (W / laneCount W T)) ((List.range s.count).map s.dims)
        (List.replicate (laneCount W T) 0)).1
    simp only [containerWidth]
    exact layoutGreedy_extent_zero pad (sizeHorizontal (W / laneCount W T))
      (mkHorizontal (W / laneCount W T)) (fun t => t.x + t.width + pad)
      (fun c off sz => rfl) ((List.range s.count).map s.dims) (laneCount W T)
      (Nat.le_max_left 1 (W / T))
  · intro hcols
    show (s.count + gridColumns W T pad - 1) / gridColumns W T pad * (T + pad) =
      containerHeight pad ((List.range s.count).map
        (gridTransform (gridColumns W T pad) (T + pad) T))
    exact grid_extent_characterization s.count (gridColumns W T pad) T pad hcols

/-- Witness for the claim C7 theorem at the spec's example grid input. -/
theorem compute_returns_extent_witness :
    1 ≤ gridColumns 220 100 10 ∧
    ((exampleWorker 4 ⟨100, 100⟩).compute 220 .Grid 100 10).2 =
      containerHeight 10
        ((exampleWorker 4 ⟨100, 100⟩).compute 220 .Grid 100 10).1.transforms :=
  ⟨by decide,
    (compute_returns_extent (exampleWorker 4 ⟨100, 100⟩) 220 100 10).2.2 (by decide)⟩

/-- Claim C9: `getBytesHumanReadable` returns exactly `"0 Bytes"` for
every `bytes ≤ 0` (zero and negative values included), and for every
integral `1 ≤ bytes < 1024` it returns the value formatted with two
decimal places followed by `" Bytes"` — the unit index is `0`, so neither
`NaN` nor an undefined unit suffix can appear in this range. -/
theorem bytes_human_readable :
    (∀ b : Int, b ≤ 0 → getBytesHumanReadable b = "0 Bytes") ∧
    (∀ b : Int, 1 ≤ b → b < 1024 →
      getBytesHumanReadable b = toFixed2 (b : ℚ) ++ " Bytes") := by
  constructor
  · intro b hb
    simp [getBytesHumanReadable, hb]
  · intro b h1 h2
    have h0 : ¬ b ≤ 0 := by omega
    have hlt : b.toNat < 1024 := by omega
    simp only [getBytesHumanReadable, if_neg h0]
    rw [log1024_eq_zero b.toNat hlt]
    simp only [pow_zero, div_one]
    have hsuf : ((sufixes.get? 0).getD "undefined") = "Bytes" := rfl
    rw [hsuf, string_append_assoc]
    have hb2 : (" " ++ "Bytes" : String) = " Bytes" := rfl
    rw [hb2]

/-- Witness for the claim C9 theorem at `-5` and `500`. -/
theorem bytes_human_readable_witness :
    ((-5 : Int) ≤ 0 ∧ getBytesHumanReadable (-5) = "0 Bytes") ∧
    ((1 : Int) ≤ 500 ∧ (500 : Int) < 1024 ∧
      getBytesHumanReadable 500 = toFixed2 ((500 : Int) : ℚ) ++ " Bytes") :=
  ⟨⟨by decide, bytes_human_readable.1 (-5) (by decide)⟩,
    ⟨by decide, by decide, bytes_human_readable.2 500 (by decide) (by decide)⟩⟩

end Allusion
